import Mathlib

/-!
Shallow embedding of the download supervisor in youtube_bot.py:
the byte formatter, the progress throttle, the cleanup sweep, the
semaphore-bounded download tracking, and the download_media operation.
Times and byte counts are modelled as exact rationals (Python floats),
maps as association lists or finite sets, and exceptions as Except
values.

Rational arithmetic is carried out by the num/den combinators qadd,
qsub, qmul, qdiv below so that closed instances evaluate inside proofs;
each is proved equal to the corresponding field operation on the
rationals, so the embedding computes with ordinary exact division,
subtraction and multiplication.
-/

/-- Rational multiplication through numerators and denominators. -/
def qmul (a b : ℚ) : ℚ := Rat.divInt (a.num * b.num) ((a.den : ℤ) * (b.den : ℤ))

/-- Rational addition through numerators and denominators. -/
def qadd (a b : ℚ) : ℚ :=
  Rat.divInt (a.num * (b.den : ℤ) + b.num * (a.den : ℤ)) ((a.den : ℤ) * (b.den : ℤ))

/-- Rational subtraction through numerators and denominators. -/
def qsub (a b : ℚ) : ℚ :=
  Rat.divInt (a.num * (b.den : ℤ) - b.num * (a.den : ℤ)) ((a.den : ℤ) * (b.den : ℤ))

/-- Rational division through numerators and denominators. -/
def qdiv (a b : ℚ) : ℚ := Rat.divInt (a.num * (b.den : ℤ)) ((a.den : ℤ) * b.num)

/-- Embedding of an integer as a rational. -/
def qofInt (z : ℤ) : ℚ := Rat.divInt z 1

/-- Configured concurrency bound (MAX_CONCURRENT_DOWNLOADS = 3). -/
def MAX_CONCURRENT_DOWNLOADS : ℕ := 3

/-- File retention threshold in seconds (MAX_STORAGE_TIME = 7200). -/
def MAX_STORAGE_TIME : ℚ := 7200

/-- Renders a nonnegative rational with one decimal place, as the
floating-point format string of `_format_bytes` does. -/
def oneDecimal (q : ℚ) : String :=
  let t : ℤ := ⌊qadd (qmul q 10) (mkRat 1 2)⌋
  toString (t / 10) ++ "." ++ toString (t % 10)

/-- The unit list the loop in `_format_bytes` walks through before the
final TB fallback. -/
def byteUnits : List String := ["B", "KB", "MB", "GB"]

/-- The loop of `_format_bytes`: divide by 1024 while the value is at
least 1024 and units remain; when units run out, render in TB. -/
def formatLoop : ℚ → List String → String
  | q, [] => oneDecimal q ++ " " ++ "TB"
  | q, u :: us =>
    if q < 1024 then oneDecimal q ++ " " ++ u else formatLoop (qdiv q 1024) us

/-- The `_format_bytes` function: 0 renders as "0 B", otherwise the
division loop over the unit list runs. -/
def formatBytes (n : ℕ) : String :=
  if n = 0 then "0 B" else formatLoop (n : ℚ) byteUnits

/-- Number of divisions by 1024 the formatting loop performs, capped by
the remaining fuel (length of the remaining unit list). -/
def unitIdx : ℚ → ℕ → ℕ
  | _, 0 => 0
  | q, f + 1 => if q < 1024 then 0 else unitIdx (qdiv q 1024) f + 1

/-- The unit chosen by `_format_bytes` for a nonzero byte count. -/
def unitName (n : ℕ) : String :=
  (byteUnits ++ ["TB"]).getD (unitIdx (n : ℚ) byteUnits.length) "TB"

/-- Throttle-state map: job key to timestamp of last emitted update
(`progress_messages`). -/
abbrev PM := List (String × ℚ)

/-- Lookup with default 0, as `progress_messages.get(key, 0)`. -/
def pmGet (pm : PM) (key : String) : ℚ :=
  match pm.find? (fun p => p.1 == key) with
  | some p => p.2
  | none => 0

/-- Dictionary assignment `progress_messages[key] = v`. -/
def pmSet (pm : PM) (key : String) (v : ℚ) : PM :=
  (key, v) :: pm.filter (fun p => p.1 != key)

/-- Dictionary deletion `del progress_messages[key]` (guarded by the
membership test in the source, hence total). -/
def pmDel (pm : PM) (key : String) : PM :=
  pm.filter (fun p => p.1 != key)

/-- Python float modulo for a positive modulus: x % y = x - y*floor(x/y). -/
def pymod (x y : ℚ) : ℚ := qsub x (qmul y (qofInt ⌊qdiv x y⌋))

/-- The emission condition at line 190 of the source:
current_time - last_update >= 10 or percentage % 5 < 1. -/
def shouldEmit (pm : PM) (key : String) (pct now : ℚ) : Bool :=
  decide (qsub now (pmGet pm key) ≥ 10) || decide (pymod pct 5 < 1)

/-- Delivery-fault classes the edit call can raise in the bot-platform
library: BadRequest, NetworkError and TimedOut are the classes the
source imports and catches at line 229; retryAfter models the library's
RetryAfter (its rate-limit error, a direct subclass of TelegramError,
not of the caught classes) and forbidden models Forbidden (for example
the user blocked the bot), neither of which the except tuple covers. -/
inductive TgError where
  | badRequest
  | networkError
  | timedOut
  | retryAfter
  | forbidden
deriving DecidableEq

deriving instance DecidableEq for Except

/-- The `_update_progress_message` step: attempts the edit and swallows
exactly the faults named in the except clause at line 229 — BadRequest,
NetworkError and TimedOut; any other delivery fault (rate-limit
RetryAfter, Forbidden) is not caught and propagates out of the step. -/
def updateProgressMessage (send : Except TgError Unit) : Except TgError Unit :=
  match send with
  | Except.ok _ => Except.ok ()
  | Except.error TgError.badRequest => Except.ok ()
  | Except.error TgError.networkError => Except.ok ()
  | Except.error TgError.timedOut => Except.ok ()
  | Except.error e => Except.error e

/-- One progress sample delivered to `_progress_hook`: the status flag,
byte counters, arrival time, and the (ignored) outcome of the
fire-and-forget message edit scheduled for it. -/
structure Sample where
  isDownloading : Bool
  downloaded : ℚ
  total : ℚ
  t : ℚ
  send : Except TgError Unit
deriving DecidableEq

/-- The `_progress_hook` body for one sample: when the sample is in
downloading state with a positive total, computes the percentage
(downloaded / total * 100) and consults the throttle; on emit it records
the arrival time in the throttle map. Returns whether an update was
scheduled, and the new map. -/
def progressHook (key : String) (s : Sample) (pm : PM) : Bool × PM :=
  if s.isDownloading && decide (0 < s.total) then
    let pct := qmul (qdiv s.downloaded s.total) 100
    if shouldEmit pm key pct s.t then (true, pmSet pm key s.t) else (false, pm)
  else (false, pm)

/-- Emission flags produced by a sequence of samples for one job. -/
def runFlags (key : String) : PM → List Sample → List Bool
  | _, [] => []
  | pm, s :: ss =>
    let r := progressHook key s pm
    r.1 :: runFlags key r.2 ss

/-- Final throttle map after a sequence of samples for one job. -/
def runHook (key : String) : PM → List Sample → PM
  | pm, [] => pm
  | pm, s :: ss => runHook key (progressHook key s pm).2 ss

/-- A sample in downloading state with no delivery fault. -/
def mkSample (dl total time : ℚ) : Sample :=
  ⟨true, dl, total, time, Except.ok ()⟩

/-- The mutable bookkeeping of AdvancedYouTubeDownloader: the active-jobs
tracking map (keys of `active_downloads`, whose values are always True)
and the throttle-state map `progress_messages`. -/
structure DlState where
  active_downloads : Finset String
  progress_messages : PM
deriving DecidableEq

/-- One run of the extraction step as download_media observes it: the
derived video id, the progress samples the extractor delivers to the
hook, the outcome of extract_info (a raised fault message, or the
directory listing of the download directory afterwards: file name and
modification time), and the wall-clock time at the file scan. -/
structure DlEnv where
  videoId : String
  samples : List Sample
  result : Except String (List (String × ℚ))
  now : ℚ
deriving DecidableEq

/-- The candidate filter of download_media line 311-316: files of the
download directory whose name contains the video id and whose
modification time is within 300 seconds of the scan. -/
def downloadCandidates (videoId : String) (now : ℚ) (listing : List (String × ℚ)) :
    List (String × ℚ) :=
  listing.filter (fun f => decide (videoId.data <:+: f.1.data) && decide (qsub now f.2 < 300))

/-- The comparison step of Python max(files, key=mtime): keep the
earlier file unless the next one is strictly newer. -/
def pickBetter (best g : String × ℚ) : String × ℚ :=
  if best.2 < g.2 then g else best

/-- Python max(files, key=mtime): the first file of maximal modification
time, none on an empty list. -/
def pickLatest : List (String × ℚ) → Option (String × ℚ)
  | [] => none
  | f :: fs => some (fs.foldl pickBetter f)

/-- Lines 310-323 of download_media: return the most recently modified
candidate file, or None when no candidate exists. -/
def findDownloadedFile (videoId : String) (now : ℚ) (listing : List (String × ℚ)) :
    Option String :=
  match pickLatest (downloadCandidates videoId now listing) with
  | some f => some f.1
  | none => none

/-- The try block of download_media: registers the job key in
active_downloads, runs the extraction (folding every progress sample
through the hook), and either propagates the raised fault or resolves
the downloaded file from the directory listing. -/
def downloadMediaBody (key : String) (env : DlEnv) (st : DlState) :
    Except String (Option String) × DlState :=
  let active1 := insert key st.active_downloads
  let pm1 := runHook key st.progress_messages env.samples
  match env.result with
  | Except.error e => (Except.error e, ⟨active1, pm1⟩)
  | Except.ok listing => (Except.ok (findDownloadedFile env.videoId env.now listing), ⟨active1, pm1⟩)

/-- The whole download_media call: the try block, the except clause that
turns any raised fault into a None return, and the finally clause that
removes the job key from both tracking maps on every exit path. -/
def downloadMedia (key : String) (env : DlEnv) (st : DlState) : Option String × DlState :=
  let r := downloadMediaBody key env st
  let cleaned : DlState :=
    ⟨r.2.active_downloads.erase key, pmDel r.2.progress_messages key⟩
  match r.1 with
  | Except.ok v => (v, cleaned)
  | Except.error _ => (none, cleaned)

/-- Replaces the delivery outcome of a sample by a fixed value; two
sample lists equal after this map differ only in delivery outcomes. -/
def eraseSend (s : Sample) : Sample := { s with send := Except.ok () }

/-- The files one sweep of _cleanup_old_files deletes from a directory:
exactly those whose age now - mtime exceeds MAX_STORAGE_TIME. -/
def deletedFiles (now : ℚ) (files : List (String × ℚ)) : List (String × ℚ) :=
  files.filter (fun f => decide (qsub now f.2 > MAX_STORAGE_TIME))

/-- The files surviving one sweep of _cleanup_old_files over a
directory: those not deleted. -/
def cleanupOldFiles (now : ℚ) (files : List (String × ℚ)) : List (String × ℚ) :=
  files.filter (fun f => ! decide (qsub now f.2 > MAX_STORAGE_TIME))

/-- One full sweep cycle over the download and temp directories. -/
def cleanupSweep (now : ℚ) (downloads temp : List (String × ℚ)) :
    List (String × ℚ) × List (String × ℚ) :=
  (cleanupOldFiles now downloads, cleanupOldFiles now temp)

/-- Control position of one download_media call with respect to the
semaphore and the tracking map: not yet called, suspended at the
semaphore, holding a slot before registering, registered in
active_downloads, past the finally cleanup but still holding the slot,
and finished (slot released). -/
inductive Phase where
  | idle
  | waiting
  | acquired
  | registered
  | cleaned
  | done
deriving DecidableEq

/-- Whether a job in this phase holds one of the semaphore slots. -/
def Phase.holding : Phase → Bool
  | Phase.acquired => true
  | Phase.registered => true
  | Phase.cleaned => true
  | _ => false

/-- Global state of n concurrent download_media calls: the phase of each
job, the tracking map contents, and the free semaphore permits. -/
structure SupState (n : ℕ) where
  phase : Fin n → Phase
  active : Finset (Fin n)
  avail : ℕ

/-- Initial state: no job started, empty tracking map, all
MAX_CONCURRENT_DOWNLOADS permits free. -/
def initState (n : ℕ) : SupState n :=
  ⟨fun _ => Phase.idle, ∅, MAX_CONCURRENT_DOWNLOADS⟩

/-- Interleaving semantics of concurrent download_media calls: a job
suspends at the semaphore, acquires a free permit, registers itself in
active_downloads (line 259, inside the async-with block), is removed by
the finally clause (line 330, still inside the block), and only then
releases its permit when the async-with block exits. -/
inductive SupStep {n : ℕ} : SupState n → SupState n → Prop where
  | start (s : SupState n) (j : Fin n) :
      s.phase j = Phase.idle →
      SupStep s ⟨Function.update s.phase j Phase.waiting, s.active, s.avail⟩
  | acquire (s : SupState n) (j : Fin n) :
      s.phase j = Phase.waiting → 0 < s.avail →
      SupStep s ⟨Function.update s.phase j Phase.acquired, s.active, s.avail - 1⟩
  | register (s : SupState n) (j : Fin n) :
      s.phase j = Phase.acquired →
      SupStep s ⟨Function.update s.phase j Phase.registered, insert j s.active, s.avail⟩
  | cleanup (s : SupState n) (j : Fin n) :
      s.phase j = Phase.registered →
      SupStep s ⟨Function.update s.phase j Phase.cleaned, s.active.erase j, s.avail⟩
  | release (s : SupState n) (j : Fin n) :
      s.phase j = Phase.cleaned →
      SupStep s ⟨Function.update s.phase j Phase.done, s.active, s.avail + 1⟩

/-- States reachable from the initial state by interleaved steps. -/
def SupReachable {n : ℕ} (s : SupState n) : Prop :=
  Relation.ReflTransGen SupStep (initState n) s

/-- The set of jobs currently holding a semaphore slot. -/
def holders {n : ℕ} (phase : Fin n → Phase) : Finset (Fin n) :=
  Finset.univ.filter (fun j => (phase j).holding = true)

/-- Inductive invariant: the tracking map contains exactly the
registered jobs, and free permits plus held slots account for all
MAX_CONCURRENT_DOWNLOADS permits. -/
def SupInv {n : ℕ} (s : SupState n) : Prop :=
  (∀ j, j ∈ s.active ↔ s.phase j = Phase.registered) ∧
    s.avail + (holders s.phase).card = MAX_CONCURRENT_DOWNLOADS

/-- The sample sequence of the specification: percentages
[0, 1, 2, 6, 7, 11] over a total of 100 bytes, arriving one second
apart starting at time t0. -/
def boundarySamples (t0 : ℚ) : List Sample :=
  [mkSample 0 100 t0, mkSample 1 100 (qadd t0 1), mkSample 2 100 (qadd t0 2),
   mkSample 6 100 (qadd t0 3), mkSample 7 100 (qadd t0 4), mkSample 11 100 (qadd t0 5)]

/-- An extraction run that raises the given fault before producing any
progress sample. -/
def faultEnv (msg : String) : DlEnv := ⟨"dQw4w9Wg", [], Except.error msg, 1000⟩

/-- A concrete directory listing observed after a successful run. -/
def okListing : List (String × ℚ) :=
  [("dQw4w9Wg_100.mp4", 900), ("other_99.mp4", 890),
   ("dQw4w9Wg_50.mp4", 880), ("dQw4w9Wg_old.mp4", 100)]

/-- A successful extraction run over that directory listing. -/
def okEnv : DlEnv := ⟨"dQw4w9Wg", [], Except.ok okListing, 1000⟩

/-- An extraction run delivering one sample whose message edit fails
with an uncaught rate-limit fault. -/
def sendFailEnv : DlEnv :=
  ⟨"dQw4w9Wg", [⟨true, 50, 100, 100, Except.error TgError.retryAfter⟩], Except.ok [], 1000⟩

/-- The same run with the message edit succeeding. -/
def sendOkEnv : DlEnv :=
  ⟨"dQw4w9Wg", [⟨true, 50, 100, 100, Except.ok ()⟩], Except.ok [], 1000⟩

theorem num_eq_mul_den (a : ℚ) : (a.num : ℚ) = a * (a.den : ℚ) := by
  have ha0 : ((a.den : ℚ)) ≠ 0 := by exact_mod_cast a.den_nz
  exact (div_eq_iff ha0).mp (Rat.num_div_den a)

theorem qmul_eq (a b : ℚ) : qmul a b = a * b := by
  have ha0 : ((a.den : ℚ)) ≠ 0 := by exact_mod_cast a.den_nz
  have hb0 : ((b.den : ℚ)) ≠ 0 := by exact_mod_cast b.den_nz
  rw [qmul, Rat.divInt_eq_div]
  push_cast
  rw [div_eq_iff (mul_ne_zero ha0 hb0), num_eq_mul_den, num_eq_mul_den]
  ring

theorem qadd_eq (a b : ℚ) : qadd a b = a + b := by
  have ha0 : ((a.den : ℚ)) ≠ 0 := by exact_mod_cast a.den_nz
  have hb0 : ((b.den : ℚ)) ≠ 0 := by exact_mod_cast b.den_nz
  rw [qadd, Rat.divInt_eq_div]
  push_cast
  rw [div_eq_iff (mul_ne_zero ha0 hb0), num_eq_mul_den, num_eq_mul_den]
  ring

theorem qsub_eq (a b : ℚ) : qsub a b = a - b := by
  have ha0 : ((a.den : ℚ)) ≠ 0 := by exact_mod_cast a.den_nz
  have hb0 : ((b.den : ℚ)) ≠ 0 := by exact_mod_cast b.den_nz
  rw [qsub, Rat.divInt_eq_div]
  push_cast
  rw [div_eq_iff (mul_ne_zero ha0 hb0), num_eq_mul_den, num_eq_mul_den]
  ring

theorem qdiv_eq (a b : ℚ) : qdiv a b = a / b := by
  rcases eq_or_ne b 0 with rfl | hb
  · simp [qdiv]
  · have ha0 : ((a.den : ℚ)) ≠ 0 := by exact_mod_cast a.den_nz
    have hbn : (b.num : ℚ) ≠ 0 := by exact_mod_cast Rat.num_ne_zero.mpr hb
    rw [qdiv, Rat.divInt_eq_div]
    push_cast
    rw [div_eq_div_iff (mul_ne_zero ha0 hbn) hb, num_eq_mul_den, num_eq_mul_den]
    ring

theorem qofInt_eq (z : ℤ) : qofInt z = (z : ℚ) := by
  rw [qofInt, Rat.divInt_eq_div]
  simp

theorem pymod_eq (x y : ℚ) : pymod x y = x - y * ⌊x / y⌋ := by
  rw [pymod, qsub_eq, qmul_eq, qofInt_eq, qdiv_eq]

theorem pmGet_pmSet (pm : PM) (key : String) (v : ℚ) : pmGet (pmSet pm key v) key = v := by
  simp [pmGet, pmSet]

theorem pmDel_absent (pm : PM) (key : String) (v : ℚ) : (key, v) ∉ pmDel pm key := by
  intro hv
  rw [pmDel, List.mem_filter] at hv
  simp at hv

theorem downloadMedia_state (key : String) (env : DlEnv) (st : DlState) :
    (downloadMedia key env st).2 =
      ⟨(downloadMediaBody key env st).2.active_downloads.erase key,
        pmDel (downloadMediaBody key env st).2.progress_messages key⟩ := by
  unfold downloadMedia
  cases h : (downloadMediaBody key env st).1 <;> simp [h]

/-- C1: for every call to download_media with any environment (derived
video id, progress samples, extraction outcome) and any job key, after
the call returns — path, failure, or raised fault — the key is absent
from both active_downloads and progress_messages. -/
theorem download_media_always_cleans (key : String) (env : DlEnv) (st : DlState) :
    key ∉ (downloadMedia key env st).2.active_downloads ∧
      ∀ v : ℚ, (key, v) ∉ (downloadMedia key env st).2.progress_messages := by
  rw [downloadMedia_state]
  exact ⟨Finset.not_mem_erase key _, fun v => pmDel_absent _ key v⟩

/-- Witness for C1 at a concrete faulting call. -/
theorem download_media_always_cleans_witness :
    "1_2" ∉ (downloadMedia "1_2" (faultEnv "DownloadError") ⟨∅, []⟩).2.active_downloads ∧
      ∀ v : ℚ, ("1_2", v) ∉ (downloadMedia "1_2" (faultEnv "DownloadError") ⟨∅, []⟩).2.progress_messages :=
  download_media_always_cleans "1_2" (faultEnv "DownloadError") ⟨∅, []⟩

/-- C3: for a downloading sample with positive total, the hook emits if
and only if at least 10 seconds have elapsed since the stored
last-emission time for the key, or the percentage modulo 5 is strictly
below 1; and on emission the stored timestamp for the key becomes the
current time. -/
theorem throttle_emits_iff (key : String) (s : Sample) (pm : PM)
    (hd : s.isDownloading = true) (ht : 0 < s.total) :
    ((progressHook key s pm).1 = true ↔
      (s.t - pmGet pm key ≥ 10 ∨ pymod (s.downloaded / s.total * 100) 5 < 1)) ∧
    ((progressHook key s pm).1 = true →
      pmGet (progressHook key s pm).2 key = s.t) := by
  have hcond : (s.isDownloading && decide (0 < s.total)) = true := by
    rw [hd, decide_eq_true ht]
    rfl
  have hrun : progressHook key s pm =
      (if shouldEmit pm key (qmul (qdiv s.downloaded s.total) 100) s.t
        then (true, pmSet pm key s.t) else (false, pm)) := by
    unfold progressHook
    rw [hcond]
    simp
  have hiff : shouldEmit pm key (qmul (qdiv s.downloaded s.total) 100) s.t = true ↔
      (s.t - pmGet pm key ≥ 10 ∨ pymod (s.downloaded / s.total * 100) 5 < 1) := by
    rw [shouldEmit, Bool.or_eq_true, decide_eq_true_iff, decide_eq_true_iff,
      qsub_eq, qmul_eq, qdiv_eq]
  rw [hrun]
  cases hemit : shouldEmit pm key (qmul (qdiv s.downloaded s.total) 100) s.t with
  | true =>
    rw [hemit] at hiff
    refine ⟨by simpa using hiff.symm.mpr rfl, fun _ => ?_⟩
    simpa using pmGet_pmSet pm key s.t
  | false =>
    rw [hemit] at hiff
    constructor
    · simp only [if_neg (by simp : ¬ (false = true))]
      constructor
      · intro h
        simp at h
      · intro h
        exact absurd (hiff.mpr h) (by simp)
    · intro h
      simp at h

/-- Witness for C3 at a concrete sample on the 5 percent band. -/
theorem throttle_emits_iff_witness :
    ((progressHook "1_2" (mkSample 50 100 100) []).1 = true ↔
      ((mkSample 50 100 100).t - pmGet [] "1_2" ≥ 10 ∨
        pymod ((mkSample 50 100 100).downloaded / (mkSample 50 100 100).total * 100) 5 < 1)) ∧
    ((progressHook "1_2" (mkSample 50 100 100) []).1 = true →
      pmGet (progressHook "1_2" (mkSample 50 100 100) []).2 "1_2" = (mkSample 50 100 100).t) :=
  throttle_emits_iff "1_2" (mkSample 50 100 100) [] rfl (by decide)

/-- C9: on a key with no recorded emission, every first downloading
sample with positive total emits regardless of percentage, since the
stored time defaults to 0 and wall-clock time minus 0 is at least 10. -/
theorem fresh_key_first_sample_emits (key : String) (pm : PM) (s : Sample)
    (hfresh : pm.find? (fun p => p.1 == key) = none)
    (hd : s.isDownloading = true) (ht : 0 < s.total) (hwall : 10 ≤ s.t) :
    (progressHook key s pm).1 = true := by
  have hget : pmGet pm key = 0 := by rw [pmGet, hfresh]
  have hemit : shouldEmit pm key (qmul (qdiv s.downloaded s.total) 100) s.t = true := by
    rw [shouldEmit, Bool.or_eq_true]
    left
    rw [decide_eq_true_iff, qsub_eq, hget, sub_zero]
    exact hwall
  have hcond : (s.isDownloading && decide (0 < s.total)) = true := by
    rw [hd, decide_eq_true ht]
    rfl
  unfold progressHook
  rw [hcond]
  simp [hemit]

/-- Witness for C9: percentage 3 (not on a 5 percent band) still emits. -/
theorem fresh_key_first_sample_emits_witness :
    (progressHook "1_2" (mkSample 3 100 12) []).1 = true :=
  fresh_key_first_sample_emits "1_2" [] (mkSample 3 100 12) rfl rfl (by decide) (by decide)

/-- C5 counterexample: two extraction faults with different
human-readable reasons produce the identical return value None — the
failure signal carries no reason at all. -/
theorem download_media_fault_carries_no_reason :
    (downloadMedia "1_2" (faultEnv "Network is unreachable") ⟨∅, []⟩).1 = none ∧
    downloadMedia "1_2" (faultEnv "Network is unreachable") ⟨∅, []⟩ =
      downloadMedia "1_2" (faultEnv "Requested format is not available") ⟨∅, []⟩ := by
  decide

/-- C5 amended: on every input where the extractor raises, download_media
does not propagate the exception and returns None, a failure signal
carrying no reason (the reason is only logged). -/
theorem download_media_fault_returns_none (key : String) (env : DlEnv) (st : DlState)
    (e : String) (h : env.result = Except.error e) :
    (downloadMedia key env st).1 = none := by
  simp [downloadMedia, downloadMediaBody, h]

/-- Witness for the amended C5. -/
theorem download_media_fault_returns_none_witness :
    (downloadMedia "1_2" (faultEnv "HTTP Error 403") ⟨∅, []⟩).1 = none :=
  download_media_fault_returns_none "1_2" (faultEnv "HTTP Error 403") ⟨∅, []⟩
    "HTTP Error 403" rfl

/-- C6: one sweep cycle deletes a file exactly when its age now - mtime
exceeds MAX_STORAGE_TIME, keeps every file whose age does not exceed it
unchanged, in both the download and temp directories, and does nothing
on empty directories. -/
theorem cleanup_sweep_spec (now : ℚ) (downloads temp : List (String × ℚ)) :
    (∀ f, f ∈ deletedFiles now downloads ↔ f ∈ downloads ∧ now - f.2 > MAX_STORAGE_TIME) ∧
    (∀ f, f ∈ (cleanupSweep now downloads temp).1 ↔
      f ∈ downloads ∧ ¬ now - f.2 > MAX_STORAGE_TIME) ∧
    (∀ f, f ∈ deletedFiles now temp ↔ f ∈ temp ∧ now - f.2 > MAX_STORAGE_TIME) ∧
    (∀ f, f ∈ (cleanupSweep now downloads temp).2 ↔
      f ∈ temp ∧ ¬ now - f.2 > MAX_STORAGE_TIME) ∧
    deletedFiles now [] = [] ∧ cleanupSweep now [] [] = ([], []) := by
  refine ⟨?_, ?_, ?_, ?_, rfl, rfl⟩ <;>
    · intro f
      simp [deletedFiles, cleanupSweep, cleanupOldFiles, List.mem_filter, qsub_eq]

theorem formatLoop_eq (l : List String) : ∀ q : ℚ,
    formatLoop q l =
      oneDecimal (q / 1024 ^ unitIdx q l.length) ++ " " ++
        (l ++ ["TB"]).getD (unitIdx q l.length) "TB" := by
  induction l with
  | nil =>
    intro q
    simp [formatLoop, unitIdx]
  | cons u us ih =>
    intro q
    by_cases h : q < 1024
    · simp [formatLoop, unitIdx, h]
    · have hstep : formatLoop q (u :: us) = formatLoop (qdiv q 1024) us := by
        simp [formatLoop, h]
      have hidx : unitIdx q (u :: us).length = unitIdx (qdiv q 1024) us.length + 1 := by
        simp [unitIdx, h]
      rw [hstep, ih (qdiv q 1024), hidx]
      have harg : qdiv q 1024 / 1024 ^ unitIdx (qdiv q 1024) us.length =
          q / 1024 ^ (unitIdx (qdiv q 1024) us.length + 1) := by
        rw [qdiv_eq, div_div, ← pow_succ']
      rw [harg]
      simp

theorem unitIdx_mono : ∀ (f : ℕ) (q r : ℚ), q ≤ r → unitIdx q f ≤ unitIdx r f := by
  intro f
  induction f with
  | zero =>
    intro q r h
    simp [unitIdx]
  | succ f ih =>
    intro q r h
    by_cases hr : r < 1024
    · have hq : q < 1024 := lt_of_le_of_lt h hr
      simp [unitIdx, hq, hr]
    · by_cases hq : q < 1024
      · simp [unitIdx, hq, hr]
      · simp only [unitIdx, if_neg hq, if_neg hr]
        have hd : qdiv q 1024 ≤ qdiv r 1024 := by
          rw [qdiv_eq, qdiv_eq]
          exact (div_le_div_iff_of_pos_right (by norm_num)).mpr h
        exact Nat.succ_le_succ (ih _ _ hd)

/-- C7: the byte formatter renders 0 as "0 B", 1536 as "1.5 KB",
1073741824 as "1.0 GB"; every nonzero count is rendered with one
decimal place as the value divided down by 1024 as often as the loop
steps, paired with the unit the loop stops at; and the chosen unit index
is monotone in the byte count. -/
theorem format_bytes_spec :
    formatBytes 0 = "0 B" ∧
    formatBytes 1536 = "1.5 KB" ∧
    formatBytes 1073741824 = "1.0 GB" ∧
    (∀ n : ℕ, n ≠ 0 → formatBytes n =
      oneDecimal ((n : ℚ) / 1024 ^ unitIdx (n : ℚ) 4) ++ " " ++ unitName n) ∧
    (∀ n m : ℕ, n ≤ m → unitIdx (n : ℚ) 4 ≤ unitIdx (m : ℚ) 4) := by
  refine ⟨by decide, by decide, by decide, ?_, ?_⟩
  · intro n hn
    rw [formatBytes, if_neg hn, unitName]
    simpa [byteUnits] using formatLoop_eq byteUnits (n : ℚ)
  · intro n m h
    exact unitIdx_mono 4 _ _ (by exact_mod_cast h)

/-- Witness for C7 at concrete byte counts. -/
theorem format_bytes_spec_witness :
    formatBytes 2048 =
      oneDecimal ((2048 : ℚ) / 1024 ^ unitIdx ((2048 : ℕ) : ℚ) 4) ++ " " ++ unitName 2048 ∧
    unitIdx (((500 : ℕ)) : ℚ) 4 ≤ unitIdx (((2000000 : ℕ)) : ℚ) 4 :=
  ⟨format_bytes_spec.2.2.2.1 2048 (by decide),
    format_bytes_spec.2.2.2.2 500 2000000 (by decide)⟩

theorem foldl_pickBetter_spec (fs : List (String × ℚ)) : ∀ f : String × ℚ,
    fs.foldl pickBetter f ∈ f :: fs ∧
      ∀ g ∈ f :: fs, g.2 ≤ (fs.foldl pickBetter f).2 := by
  induction fs with
  | nil =>
    intro f
    refine ⟨List.mem_cons_self f [], ?_⟩
    intro g hg
    rw [List.mem_singleton] at hg
    rw [hg]
    exact le_refl _
  | cons a as ih =>
    intro f
    obtain ⟨ihm, ihb⟩ := ih (pickBetter f a)
    have hfold : (a :: as).foldl pickBetter f = as.foldl pickBetter (pickBetter f a) := rfl
    constructor
    · rw [hfold]
      rcases List.mem_cons.mp ihm with hh | hh
      · rw [hh]
        unfold pickBetter
        by_cases hfa : f.2 < a.2
        · simp [hfa]
        · simp [hfa]
      · exact List.mem_cons_of_mem _ (List.mem_cons_of_mem _ hh)
    · intro g hg
      rw [hfold]
      have hhead : (pickBetter f a).2 ≤ (as.foldl pickBetter (pickBetter f a)).2 :=
        ihb _ (List.mem_cons_self _ _)
      rcases List.mem_cons.mp hg with hg1 | hg2
      · have : f.2 ≤ (pickBetter f a).2 := by
          unfold pickBetter
          by_cases hfa : f.2 < a.2
          · simp [hfa]
            exact le_of_lt hfa
          · simp [hfa]
        rw [hg1]
        exact le_trans this hhead
      · rcases List.mem_cons.mp hg2 with hg3 | hg4
        · have : a.2 ≤ (pickBetter f a).2 := by
            unfold pickBetter
            by_cases hfa : f.2 < a.2
            · simp [hfa]
            · simp [hfa]
              exact le_of_not_lt hfa
          rw [hg3]
          exact le_trans this hhead
        · exact ihb _ (List.mem_cons_of_mem _ hg4)

theorem pickLatest_spec (l : List (String × ℚ)) (hl : l ≠ []) :
    ∃ f, pickLatest l = some f ∧ f ∈ l ∧ ∀ g ∈ l, g.2 ≤ f.2 := by
  cases l with
  | nil => exact absurd rfl hl
  | cons a as =>
    obtain ⟨hm, hb⟩ := foldl_pickBetter_spec as a
    exact ⟨as.foldl pickBetter a, rfl, hm, hb⟩

/-- C10: on a successful extraction, download_media returns the
most-recently-modified file of the download directory whose name
contains the derived video id and whose modification time is within 300
seconds of the scan; with no such file it returns None even though the
extraction succeeded. -/
theorem download_media_success_path (key : String) (env : DlEnv) (st : DlState)
    (listing : List (String × ℚ)) (h : env.result = Except.ok listing) :
    (∀ f, f ∈ downloadCandidates env.videoId env.now listing ↔
      f ∈ listing ∧ env.videoId.data <:+: f.1.data ∧ env.now - f.2 < 300) ∧
    (downloadCandidates env.videoId env.now listing = [] →
      (downloadMedia key env st).1 = none) ∧
    (downloadCandidates env.videoId env.now listing ≠ [] →
      ∃ f, f ∈ downloadCandidates env.videoId env.now listing ∧
        (downloadMedia key env st).1 = some f.1 ∧
        ∀ g ∈ downloadCandidates env.videoId env.now listing, g.2 ≤ f.2) := by
  have hres : (downloadMedia key env st).1 = findDownloadedFile env.videoId env.now listing := by
    simp [downloadMedia, downloadMediaBody, h]
  refine ⟨?_, ?_, ?_⟩
  · intro f
    simp [downloadCandidates, List.mem_filter, qsub_eq, and_assoc]
  · intro hc
    rw [hres, findDownloadedFile, hc]
    rfl
  · intro hc
    obtain ⟨f, hpl, hmem, hbound⟩ := pickLatest_spec _ hc
    refine ⟨f, hmem, ?_, hbound⟩
    rw [hres, findDownloadedFile, hpl]

/-- Witness for C10 on a concrete listing with two candidates. -/
theorem download_media_success_path_witness :
    ∃ f, f ∈ downloadCandidates okEnv.videoId okEnv.now okListing ∧
      (downloadMedia "1_2" okEnv ⟨∅, []⟩).1 = some f.1 ∧
      ∀ g ∈ downloadCandidates okEnv.videoId okEnv.now okListing, g.2 ≤ f.2 :=
  (download_media_success_path "1_2" okEnv ⟨∅, []⟩ okListing rfl).2.2 (by decide)

theorem progressHook_eraseSend (key : String) (s : Sample) (pm : PM) :
    progressHook key (eraseSend s) pm = progressHook key s pm := rfl

theorem runHook_map_eraseSend (key : String) : ∀ (ss1 ss2 : List Sample) (pm : PM),
    ss1.map eraseSend = ss2.map eraseSend → runHook key pm ss1 = runHook key pm ss2 := by
  intro ss1
  induction ss1 with
  | nil =>
    intro ss2 pm h
    cases ss2 with
    | nil => rfl
    | cons s2 ss2t => simp at h
  | cons s ss ih =>
    intro ss2 pm h
    cases ss2 with
    | nil => simp at h
    | cons s2 ss2t =>
      simp only [List.map_cons, List.cons.injEq] at h
      have hh : progressHook key s pm = progressHook key s2 pm := by
        rw [← progressHook_eraseSend key s pm, ← progressHook_eraseSend key s2 pm, h.1]
      simp only [runHook]
      rw [hh]
      exact ih ss2t _ h.2

/-- C8: evaluation of the update step at every delivery-fault kind:
the except clause at line 229 catches BadRequest, NetworkError and
TimedOut, so those faults are swallowed; a rate-limit fault
(RetryAfter) or a Forbidden fault is not in the caught tuple and
propagates out of _update_progress_message, contrary to the comment
beside the clause; and the result and final state of download_media
are independent of the delivery outcomes of its samples, so no
delivery fault of any kind aborts or fails the in-flight download. -/
theorem delivery_fault_handling :
    updateProgressMessage (Except.error TgError.badRequest) = Except.ok () ∧
    updateProgressMessage (Except.error TgError.networkError) = Except.ok () ∧
    updateProgressMessage (Except.error TgError.timedOut) = Except.ok () ∧
    updateProgressMessage (Except.error TgError.retryAfter) =
      Except.error TgError.retryAfter ∧
    updateProgressMessage (Except.error TgError.forbidden) =
      Except.error TgError.forbidden ∧
    (∀ (key : String) (env1 env2 : DlEnv) (st : DlState),
      env1.videoId = env2.videoId → env1.result = env2.result → env1.now = env2.now →
      env1.samples.map eraseSend = env2.samples.map eraseSend →
      downloadMedia key env1 st = downloadMedia key env2 st) := by
  refine ⟨rfl, rfl, rfl, rfl, rfl, ?_⟩
  intro key env1 env2 st h1 h2 h3 h4
  have hb : downloadMediaBody key env1 st = downloadMediaBody key env2 st := by
    unfold downloadMediaBody
    rw [h1, h2, h3, runHook_map_eraseSend key env1.samples env2.samples st.progress_messages h4]
  unfold downloadMedia
  rw [hb]

/-- Witness for C8: an uncaught rate-limit fault on the only progress
sample leaves the download result and final state unchanged. -/
theorem delivery_fault_handling_witness :
    downloadMedia "1_2" sendFailEnv ⟨∅, []⟩ = downloadMedia "1_2" sendOkEnv ⟨∅, []⟩ :=
  delivery_fault_handling.2.2.2.2.2 "1_2" sendFailEnv sendOkEnv ⟨∅, []⟩ rfl rfl rfl rfl

theorem holders_update_same {n : ℕ} (ph : Fin n → Phase) (j : Fin n) (p : Phase)
    (h : p.holding = (ph j).holding) :
    holders (Function.update ph j p) = holders ph := by
  unfold holders
  apply Finset.filter_congr
  intro k _
  by_cases hk : k = j
  · subst hk
    rw [Function.update_same, h]
  · rw [Function.update_noteq hk]

theorem holders_update_insert {n : ℕ} (ph : Fin n → Phase) (j : Fin n) (p : Phase)
    (hold : (ph j).holding = false) (hnew : p.holding = true) :
    holders (Function.update ph j p) = insert j (holders ph) ∧ j ∉ holders ph := by
  constructor
  · ext k
    simp only [holders, Finset.mem_filter, Finset.mem_univ, true_and, Finset.mem_insert]
    by_cases hk : k = j
    · subst hk
      rw [Function.update_same]
      simp [hnew]
    · rw [Function.update_noteq hk]
      simp [hk]
  · simp [holders, hold]

theorem holders_update_erase {n : ℕ} (ph : Fin n → Phase) (j : Fin n) (p : Phase)
    (hold : (ph j).holding = true) (hnew : p.holding = false) :
    holders (Function.update ph j p) = (holders ph).erase j ∧ j ∈ holders ph := by
  constructor
  · ext k
    simp only [holders, Finset.mem_filter, Finset.mem_univ, true_and, Finset.mem_erase]
    by_cases hk : k = j
    · subst hk
      rw [Function.update_same]
      simp [hnew]
    · rw [Function.update_noteq hk]
      simp [hk]
  · simp [holders, hold]

theorem sup_inv_init (n : ℕ) : SupInv (initState n) := by
  constructor
  · intro j
    simp [initState]
  · simp [initState, holders, Phase.holding, MAX_CONCURRENT_DOWNLOADS]

theorem sup_inv_step {n : ℕ} {s1 s2 : SupState n} (h : SupStep s1 s2) (hi : SupInv s1) :
    SupInv s2 := by
  obtain ⟨hact, hcount⟩ := hi
  cases h with
  | start j hj =>
    constructor
    · intro k
      show k ∈ s1.active ↔ Function.update s1.phase j Phase.waiting k = Phase.registered
      by_cases hk : k = j
      · subst hk
        rw [Function.update_same]
        simp [hact k, hj]
      · rw [Function.update_noteq hk]
        exact hact k
    · show s1.avail + (holders (Function.update s1.phase j Phase.waiting)).card =
        MAX_CONCURRENT_DOWNLOADS
      rw [holders_update_same s1.phase j Phase.waiting (by rw [hj]; rfl)]
      exact hcount
  | acquire j hj hav =>
    obtain ⟨hins, hnot⟩ :=
      holders_update_insert s1.phase j Phase.acquired (by rw [hj]; rfl) rfl
    constructor
    · intro k
      show k ∈ s1.active ↔ Function.update s1.phase j Phase.acquired k = Phase.registered
      by_cases hk : k = j
      · subst hk
        rw [Function.update_same]
        simp [hact k, hj]
      · rw [Function.update_noteq hk]
        exact hact k
    · show s1.avail - 1 + (holders (Function.update s1.phase j Phase.acquired)).card =
        MAX_CONCURRENT_DOWNLOADS
      rw [hins, Finset.card_insert_of_not_mem hnot]
      omega
  | register j hj =>
    constructor
    · intro k
      show k ∈ insert j s1.active ↔
        Function.update s1.phase j Phase.registered k = Phase.registered
      by_cases hk : k = j
      · subst hk
        rw [Function.update_same, Finset.mem_insert]
        simp
      · rw [Function.update_noteq hk, Finset.mem_insert]
        simp [hk, hact k]
    · show s1.avail + (holders (Function.update s1.phase j Phase.registered)).card =
        MAX_CONCURRENT_DOWNLOADS
      rw [holders_update_same s1.phase j Phase.registered (by rw [hj]; rfl)]
      exact hcount
  | cleanup j hj =>
    constructor
    · intro k
      show k ∈ s1.active.erase j ↔ Function.update s1.phase j Phase.cleaned k = Phase.registered
      by_cases hk : k = j
      · subst hk
        rw [Function.update_same, Finset.mem_erase]
        simp
      · rw [Function.update_noteq hk, Finset.mem_erase]
        simp [hk, hact k]
    · show s1.avail + (holders (Function.update s1.phase j Phase.cleaned)).card =
        MAX_CONCURRENT_DOWNLOADS
      rw [holders_update_same s1.phase j Phase.cleaned (by rw [hj]; rfl)]
      exact hcount
  | release j hj =>
    obtain ⟨hers, hmem⟩ :=
      holders_update_erase s1.phase j Phase.done (by rw [hj]; rfl) rfl
    constructor
    · intro k
      show k ∈ s1.active ↔ Function.update s1.phase j Phase.done k = Phase.registered
      by_cases hk : k = j
      · subst hk
        rw [Function.update_same]
        simp [hact k, hj]
      · rw [Function.update_noteq hk]
        exact hact k
    · show s1.avail + 1 + (holders (Function.update s1.phase j Phase.done)).card =
        MAX_CONCURRENT_DOWNLOADS
      rw [hers, Finset.card_erase_of_mem hmem]
      have hpos : 0 < (holders s1.phase).card := Finset.card_pos.mpr ⟨j, hmem⟩
      omega

theorem sup_inv_reachable {n : ℕ} {s : SupState n} (h : SupReachable s) : SupInv s := by
  unfold SupReachable at h
  induction h with
  | refl => exact sup_inv_init n
  | tail _ hstep ih => exact sup_inv_step hstep ih

/-- C2: in every state reachable by interleaved download_media calls,
the number of jobs registered in the tracking map (all of which are in
Downloading state) never exceeds MAX_CONCURRENT_DOWNLOADS: a job is
inserted only after acquiring a semaphore permit and removed before its
permit is released. -/
theorem active_downloads_bounded {n : ℕ} (s : SupState n) (h : SupReachable s) :
    s.active.card ≤ MAX_CONCURRENT_DOWNLOADS := by
  obtain ⟨hact, hcount⟩ := sup_inv_reachable h
  have hsub : s.active ⊆ holders s.phase := by
    intro j hj
    have hreg := (hact j).mp hj
    simp [holders, Finset.mem_filter, hreg, Phase.holding]
  calc s.active.card ≤ (holders s.phase).card := Finset.card_le_card hsub
    _ ≤ MAX_CONCURRENT_DOWNLOADS := by omega

/-- Witness for C2: the state after one job starts, acquires a permit
and registers itself is reachable, and its tracking map is bounded. -/
theorem active_downloads_bounded_witness :
    (⟨Function.update (Function.update (Function.update (initState 1).phase 0 Phase.waiting) 0
        Phase.acquired) 0 Phase.registered,
      insert 0 (initState 1).active, (initState 1).avail - 1⟩ : SupState 1).active.card ≤
      MAX_CONCURRENT_DOWNLOADS := by
  apply active_downloads_bounded
  refine Relation.ReflTransGen.tail (Relation.ReflTransGen.tail
    (Relation.ReflTransGen.tail Relation.ReflTransGen.refl
      (SupStep.start (initState 1) 0 rfl)) (SupStep.acquire _ 0 ?_ ?_)) (SupStep.register _ 0 ?_)
  · simp [Function.update_same]
  · decide
  · simp [Function.update_same]

theorem progressHook_true (key : String) (s : Sample) (pm : PM)
    (hd : s.isDownloading = true) (ht : 0 < s.total)
    (he : shouldEmit pm key (qmul (qdiv s.downloaded s.total) 100) s.t = true) :
    progressHook key s pm = (true, pmSet pm key s.t) := by
  have hcond : (s.isDownloading && decide (0 < s.total)) = true := by
    rw [hd, decide_eq_true ht]
    rfl
  unfold progressHook
  rw [hcond]
  simp [he]

theorem progressHook_false (key : String) (s : Sample) (pm : PM)
    (hd : s.isDownloading = true) (ht : 0 < s.total)
    (he : shouldEmit pm key (qmul (qdiv s.downloaded s.total) 100) s.t = false) :
    progressHook key s pm = (false, pm) := by
  have hcond : (s.isDownloading && decide (0 < s.total)) = true := by
    rw [hd, decide_eq_true ht]
    rfl
  unfold progressHook
  rw [hcond]
  simp [he]

theorem fifty_always_emits (key : String) (pm : PM) (time : ℚ) :
    progressHook key (mkSample 50 100 time) pm = (true, pmSet pm key time) := by
  apply progressHook_true key (mkSample 50 100 time) pm rfl (show (0 : ℚ) < 100 by decide)
  show shouldEmit pm key (qmul (qdiv 50 100) 100) time = true
  unfold shouldEmit
  have hp : decide (pymod (qmul (qdiv (50 : ℚ) 100) 100) 5 < 1) = true := by decide
  rw [hp, Bool.or_true]

theorem fifty_run (key : String) : ∀ (ts : List ℚ) (pm : PM),
    runFlags key pm (ts.map (fun time => mkSample 50 100 time)) =
      List.replicate ts.length true := by
  intro ts
  induction ts with
  | nil =>
    intro pm
    rfl
  | cons t ts ih =>
    intro pm
    simp only [List.map_cons, runFlags, fifty_always_emits key pm t]
    rw [ih (pmSet pm key t)]
    simp [List.replicate_succ]

theorem later_sample_silent (t0 p off : ℚ)
    (hp : decide (pymod (qmul (qdiv p 100) 100) 5 < 1) = false)
    (hoff : off < 10) :
    progressHook "1_2" (mkSample p 100 (qadd t0 off)) [("1_2", t0)] =
      (false, [("1_2", t0)]) := by
  apply progressHook_false "1_2" (mkSample p 100 (qadd t0 off)) [("1_2", t0)] rfl
    (show (0 : ℚ) < 100 by decide)
  show shouldEmit [("1_2", t0)] "1_2" (qmul (qdiv p 100) 100) (qadd t0 off) = false
  unfold shouldEmit
  have h2 : pmGet [("1_2", t0)] "1_2" = t0 := by simp [pmGet]
  have h3 : decide (qsub (qadd t0 off) t0 ≥ 10) = false := by
    apply decide_eq_false
    rw [qsub_eq, qadd_eq]
    intro hge
    have : t0 + off - t0 = off := by ring
    rw [this] at hge
    linarith
  rw [h2, h3, hp]
  rfl

/-- C4 counterexample: on a fresh key, the sample sequence at
percentages [0, 1, 2, 6, 7, 11] arriving one second apart (starting at
time 100) emits only at index 0; the samples at percentages 6 and 11
(indices 3 and 5) stay silent, because 6 mod 5 and 11 mod 5 equal 1,
which is not strictly below 1 — refuting emission "at indices 0, 6, and
11" under either reading of that phrase. -/
theorem boundary_sequence_counterexample :
    runFlags "1_2" [] (boundarySamples 100) = [true, false, false, false, false, false] ∧
    ¬ pymod 6 5 < 1 ∧ ¬ pymod 11 5 < 1 := by
  decide

/-- C4 amended: for every start time, the sequence at percentages
[0, 1, 2, 6, 7, 11] one second apart on a fresh key emits exactly at
index 0 (percentage 0 lies on a 5 percent band; 1, 2, 6, 7 and 11 do
not, and under ten seconds elapse after the first emission); and a
sequence of samples all at 50 percent emits at every sample — in
particular when they are spaced 11 seconds apart. -/
theorem boundary_sequence_amended :
    (∀ t0 : ℚ, runFlags "1_2" [] (boundarySamples t0) =
      [true, false, false, false, false, false]) ∧
    (∀ ts : List ℚ, runFlags "1_2" [] (ts.map (fun time => mkSample 50 100 time)) =
      List.replicate ts.length true) := by
  constructor
  · intro t0
    have e0 : progressHook "1_2" (mkSample 0 100 t0) [] = (true, [("1_2", t0)]) := by
      apply progressHook_true "1_2" (mkSample 0 100 t0) [] rfl (show (0 : ℚ) < 100 by decide)
      show shouldEmit [] "1_2" (qmul (qdiv 0 100) 100) t0 = true
      unfold shouldEmit
      have hp : decide (pymod (qmul (qdiv (0 : ℚ) 100) 100) 5 < 1) = true := by decide
      rw [hp, Bool.or_true]
    have e1 := later_sample_silent t0 1 1 (by decide) (by norm_num)
    have e2 := later_sample_silent t0 2 2 (by decide) (by norm_num)
    have e3 := later_sample_silent t0 6 3 (by decide) (by norm_num)
    have e4 := later_sample_silent t0 7 4 (by decide) (by norm_num)
    have e5 := later_sample_silent t0 11 5 (by decide) (by norm_num)
    simp only [boundarySamples, runFlags, e0, e1, e2, e3, e4, e5]
  · exact fun ts => fifty_run "1_2" ts []
